import Mathlib

/-!
Verification of `misc/scripts/gen_time_quanta.py`: the MLFQ time-quantum
table generator (`generate_exponential_quanta`) and the C++ array renderer
(`print_cpp_array`).

Modelling conventions: Python floats are modelled by real numbers, Python
ints by `ℤ`, and a raised Python exception by `Except.error`.  Python 3
`round` is round-half-to-even (`pyRound` below).  In target-max mode the
script evaluates `target_max_ms / start_ms` first and `1 / (levels - 1)`
second, so `start_ms = 0` or `levels = 1` raises `ZeroDivisionError`; both
checks appear in that order in `resolveRate`.  `print_cpp_array` is modelled
as the list of lines it prints, in order.
-/

/-- Errors a run may signal.  The script itself only ever raises Python's
`ZeroDivisionError`; `invalidParameter` is the error kind named by the design
document, and the code never produces it. -/
inductive GenError where
  | zeroDivisionError
  | invalidParameter
deriving DecidableEq

/-- Python 3 `round` on a real value: round half to even (banker's rounding). -/
noncomputable def pyRound (x : ℝ) : ℤ :=
  if Int.fract x < 1/2 then ⌊x⌋
  else if Int.fract x = 1/2 then (if Even ⌊x⌋ then ⌊x⌋ else ⌊x⌋ + 1)
  else ⌊x⌋ + 1

/-- The rate-resolution block of `generate_exponential_quanta` (lines 5-14 of
the script): target-max mode takes the branch whenever `target_max_ms` is
present, a supplied `growth_rate` is used next, and otherwise the default
`1.15` applies. -/
noncomputable def resolveRate (levels : ℤ) (start_ms : ℝ)
    (growth_rate : Option ℝ) (target_max_ms : Option ℝ) : Except GenError ℝ :=
  match target_max_ms with
  | some t =>
    if start_ms = 0 then .error .zeroDivisionError
    else if levels = 1 then .error .zeroDivisionError
    else .ok ((t / start_ms) ^ ((1 : ℝ) / ((levels : ℝ) - 1)))
  | none =>
    match growth_rate with
    | some g => .ok g
    | none => .ok 1.15

/-- The raw, pre-rounding value of level `i`: `start_ms * (growth_rate ** i)`. -/
noncomputable def rawValue (start_ms growth_rate : ℝ) (i : ℕ) : ℝ :=
  start_ms * growth_rate ^ i

/-- The generation loop `for i in range(levels)` (lines 17-19 of the script). -/
noncomputable def expand (levels : ℤ) (start_ms growth_rate : ℝ) : List ℤ :=
  (List.range levels.toNat).map fun i => pyRound (rawValue start_ms growth_rate i)

/-- `generate_exponential_quanta`: resolve the effective growth rate, then
expand and round the sequence.  An exception raised during rate resolution
propagates and no list is produced. -/
noncomputable def generate_exponential_quanta (levels : ℤ) (start_ms : ℝ)
    (growth_rate : Option ℝ) (target_max_ms : Option ℝ) :
    Except GenError (List ℤ) :=
  (resolveRate levels start_ms growth_rate target_max_ms).map
    (expand levels start_ms)

/-- One output row of `print_cpp_array`: the slice `quanta[i:i+8]`, comma
separated, with a trailing comma unless this is the last row. -/
def rowLine (quanta : List ℤ) (i : ℕ) : String :=
  let row := (quanta.drop i).take 8
  let row_str := String.intercalate ", " (row.map toString)
  if i + 8 < quanta.length then "    " ++ row_str ++ "," else "    " ++ row_str

/-- The row start offsets `range(0, len(quanta), 8)`. -/
def rowStarts (n : ℕ) : List ℕ :=
  (List.range ((n + 7) / 8)).map fun k => 8 * k

/-- `print_cpp_array`, modelled as the list of lines it prints. -/
def print_cpp_array (quanta : List ℤ) : List String :=
  ("constexpr int TIME_SLICE_QUANTA[" ++ toString quanta.length ++ "] = \x7b")
    :: ((rowStarts quanta.length).map (rowLine quanta) ++ ["\x7d;"])

/-- The successive 8-element slices taken by the renderer's loop. -/
def chunks (quanta : List ℤ) : List (List ℤ) :=
  (rowStarts quanta.length).map fun i => (quanta.drop i).take 8

lemma pyRound_of_lt_half (x : ℝ) (n : ℤ) (h1 : (n : ℝ) ≤ x)
    (h2 : x < (n : ℝ) + 1/2) : pyRound x = n := by
  have hfl : ⌊x⌋ = n := Int.floor_eq_iff.mpr ⟨h1, by linarith⟩
  have hfr : Int.fract x < 1/2 := by
    rw [Int.fract, hfl]; linarith
  rw [pyRound, if_pos hfr, hfl]

lemma pyRound_of_half_lt (x : ℝ) (n : ℤ) (h1 : (n : ℝ) + 1/2 < x)
    (h2 : x < (n : ℝ) + 1) : pyRound x = n + 1 := by
  have hfl : ⌊x⌋ = n := Int.floor_eq_iff.mpr ⟨by linarith, by linarith⟩
  have hfr : 1/2 < Int.fract x := by
    rw [Int.fract, hfl]; linarith
  rw [pyRound, if_neg (not_lt.mpr (le_of_lt hfr)), if_neg (ne_of_gt hfr), hfl]

lemma pyRound_half_even (n : ℤ) (h : Even n) :
    pyRound ((n : ℝ) + 1/2) = n := by
  have hfl : ⌊(n : ℝ) + 1/2⌋ = n := Int.floor_eq_iff.mpr ⟨by linarith, by linarith⟩
  have hfr : Int.fract ((n : ℝ) + 1/2) = 1/2 := by
    rw [Int.fract, hfl]; ring
  rw [pyRound, if_neg (by rw [hfr]; exact lt_irrefl _), if_pos hfr, hfl, if_pos h]

lemma pyRound_half_odd (n : ℤ) (h : ¬ Even n) :
    pyRound ((n : ℝ) + 1/2) = n + 1 := by
  have hfl : ⌊(n : ℝ) + 1/2⌋ = n := Int.floor_eq_iff.mpr ⟨by linarith, by linarith⟩
  have hfr : Int.fract ((n : ℝ) + 1/2) = 1/2 := by
    rw [Int.fract, hfl]; ring
  rw [pyRound, if_neg (by rw [hfr]; exact lt_irrefl _), if_pos hfr, hfl, if_neg h]

lemma pyRound_bounds (x : ℝ) : ⌊x⌋ ≤ pyRound x ∧ pyRound x ≤ ⌊x⌋ + 1 := by
  rw [pyRound]; split_ifs <;> omega

lemma pyRound_mono {x y : ℝ} (h : x ≤ y) : pyRound x ≤ pyRound y := by
  have hf : ⌊x⌋ ≤ ⌊y⌋ := Int.floor_le_floor h
  rcases lt_or_eq_of_le hf with hlt | heq
  · have hx := pyRound_bounds x
    have hy := pyRound_bounds y
    omega
  · have hfx : Int.fract x ≤ Int.fract y := by
      rw [Int.fract, Int.fract, heq]
      have := Int.floor_le x
      linarith
    rw [pyRound, pyRound, heq]
    rcases lt_trichotomy (Int.fract x) (1/2 : ℝ) with hx1 | hx1 | hx1 <;>
      rcases lt_trichotomy (Int.fract y) (1/2 : ℝ) with hy1 | hy1 | hy1 <;>
        split_ifs <;> first | omega | linarith

lemma pyRound_dist (x : ℝ) : |(pyRound x : ℝ) - x| ≤ 1/2 := by
  have h0 : (0:ℝ) ≤ Int.fract x := Int.fract_nonneg x
  have h1 : Int.fract x < 1 := Int.fract_lt_one x
  have hx : x = ⌊x⌋ + Int.fract x := by rw [Int.fract]; ring
  rw [pyRound]
  split_ifs <;> (rw [abs_le]; push_cast; constructor <;> linarith)

lemma pyRound_dist_lt (x : ℝ) (h : Int.fract x ≠ 1/2) :
    |(pyRound x : ℝ) - x| < 1/2 := by
  have h0 : (0:ℝ) ≤ Int.fract x := Int.fract_nonneg x
  have h1 : Int.fract x < 1 := Int.fract_lt_one x
  have hx : x = ⌊x⌋ + Int.fract x := by rw [Int.fract]; ring
  rw [pyRound]
  split_ifs with hc1 <;>
    (rw [abs_lt]; push_cast; constructor <;>
      first
        | linarith
        | (rcases lt_or_gt_of_ne h with hh | hh <;> linarith))

lemma rows_getElem (q : List ℤ) (k : ℕ) (hk : k < (q.length + 7) / 8) :
    ((rowStarts q.length).map (rowLine q))[k]? = some (rowLine q (8 * k)) := by
  rw [rowStarts, List.map_map, List.getElem?_map, List.getElem?_range hk]
  rfl

lemma rowLine_eq_comma (q : List ℤ) (k : ℕ) (h : 8 * k + 8 < q.length) :
    rowLine q (8 * k) = "    " ++ String.intercalate ", "
      (((q.drop (8 * k)).take 8).map toString) ++ "," := by
  simp only [rowLine]
  rw [if_pos h]

lemma rowLine_eq_no_comma (q : List ℤ) (k : ℕ) (h : ¬ (8 * k + 8 < q.length)) :
    rowLine q (8 * k) = "    " ++ String.intercalate ", "
      (((q.drop (8 * k)).take 8).map toString) := by
  simp only [rowLine]
  rw [if_neg h]

lemma flatten_chunks (m : ℕ) : ∀ q : List ℤ, q.length ≤ 8 * m →
    ((List.range m).map fun k => (q.drop (8 * k)).take 8).flatten = q := by
  induction m with
  | zero =>
    intro q hq
    have hnil : q = [] := List.eq_nil_of_length_eq_zero (by omega)
    subst hnil
    simp
  | succ m ih =>
    intro q hq
    rw [List.range_succ_eq_map, List.map_cons, List.map_map, List.flatten_cons]
    have hmap : (List.range m).map ((fun k => (q.drop (8 * k)).take 8) ∘ Nat.succ)
        = (List.range m).map fun k => ((q.drop 8).drop (8 * k)).take 8 := by
      apply List.map_congr_left
      intro k _
      simp only [Function.comp_apply]
      rw [List.drop_drop]
      congr 2
      omega
    rw [hmap, ih (q.drop 8) (by rw [List.length_drop]; omega)]
    simp [List.take_append_drop]

lemma chunks_flatten (q : List ℤ) : (chunks q).flatten = q := by
  rw [chunks, rowStarts, List.map_map]
  have h := flatten_chunks ((q.length + 7) / 8) q (by omega)
  simpa [Function.comp] using h

/-- C7: for a non-empty sequence, `print_cpp_array` emits a declaration whose
array-size literal is the element count, followed by `(n + 7) / 8` value
rows: every row but the last holds exactly 8 values and ends in a trailing
comma, the last row holds the remaining values (between 1 and 8 of them,
exactly completing the count) with no trailing comma, then the closing
brace.  In particular 8 elements give one comma-free row and 9 elements give
two rows with the first ending in a comma. -/
theorem print_cpp_array_format (q : List ℤ) (hq : q ≠ []) :
    ∃ rows : List String,
      print_cpp_array q =
        ("constexpr int TIME_SLICE_QUANTA[" ++ toString q.length ++ "] = \x7b")
          :: rows ++ ["\x7d;"] ∧
      rows.length = (q.length + 7) / 8 ∧
      (∀ k : ℕ, k + 1 < (q.length + 7) / 8 →
        rows[k]? = some ("    " ++ String.intercalate ", "
            (((q.drop (8 * k)).take 8).map toString) ++ ",") ∧
        ((q.drop (8 * k)).take 8).length = 8) ∧
      (rows[(q.length + 7) / 8 - 1]? = some ("    " ++ String.intercalate ", "
          (((q.drop (8 * ((q.length + 7) / 8 - 1))).take 8).map toString)) ∧
        1 ≤ ((q.drop (8 * ((q.length + 7) / 8 - 1))).take 8).length ∧
        ((q.drop (8 * ((q.length + 7) / 8 - 1))).take 8).length ≤ 8 ∧
        8 * ((q.length + 7) / 8 - 1)
            + ((q.drop (8 * ((q.length + 7) / 8 - 1))).take 8).length
          = q.length) := by
  have hn : 0 < q.length := List.length_pos.mpr hq
  refine ⟨(rowStarts q.length).map (rowLine q), rfl, by simp [rowStarts], ?_, ?_⟩
  · intro k hk
    have hkR : k < (q.length + 7) / 8 := by omega
    have hcond : 8 * k + 8 < q.length := by omega
    refine ⟨?_, ?_⟩
    · rw [rows_getElem q k hkR, rowLine_eq_comma q k hcond]
    · rw [List.length_take, List.length_drop]
      omega
  · have hR1 : (q.length + 7) / 8 - 1 < (q.length + 7) / 8 := by omega
    have hcond : ¬ (8 * ((q.length + 7) / 8 - 1) + 8 < q.length) := by omega
    refine ⟨?_, ?_, ?_, ?_⟩
    · rw [rows_getElem q _ hR1, rowLine_eq_no_comma q _ hcond]
    · rw [List.length_take, List.length_drop]
      omega
    · rw [List.length_take, List.length_drop]
      omega
    · rw [List.length_take, List.length_drop]
      omega

theorem print_cpp_array_format_witness :
    ∃ rows : List String,
      print_cpp_array [1, 2, 3, 4, 5, 6, 7, 8, 9] =
        ("constexpr int TIME_SLICE_QUANTA["
            ++ toString ([1, 2, 3, 4, 5, 6, 7, 8, 9] : List ℤ).length ++ "] = \x7b")
          :: rows ++ ["\x7d;"] ∧
      rows.length = 2 := by
  obtain ⟨rows, h1, h2, -, -⟩ :=
    print_cpp_array_format [1, 2, 3, 4, 5, 6, 7, 8, 9] (by decide)
  exact ⟨rows, h1, h2⟩

/-- C8: the renderer never alters, reorders, or drops values: each printed
row displays exactly one successive slice of the input, and the slices
concatenate back to the input sequence; on the empty sequence it still
produces a valid empty-array declaration with size literal 0 and no value
rows. -/
theorem print_cpp_array_preserves (q : List ℤ) :
    (chunks q).flatten = q ∧
    (∀ k : ℕ, k < (chunks q).length →
      ∃ c : List ℤ, (chunks q)[k]? = some c ∧
        ((print_cpp_array q)[k + 1]? =
            some ("    " ++ String.intercalate ", " (c.map toString) ++ ",") ∨
         (print_cpp_array q)[k + 1]? =
            some ("    " ++ String.intercalate ", " (c.map toString)))) ∧
    print_cpp_array [] =
      ["constexpr int TIME_SLICE_QUANTA[0] = \x7b", "\x7d;"] := by
  refine ⟨chunks_flatten q, ?_, by rfl⟩
  intro k hk
  have hkR : k < (q.length + 7) / 8 := by simpa [chunks, rowStarts] using hk
  have hrow : (print_cpp_array q)[k + 1]? = some (rowLine q (8 * k)) := by
    simp only [print_cpp_array, List.getElem?_cons_succ]
    rw [List.getElem?_append_left (by simpa [rowStarts] using hkR)]
    exact rows_getElem q k hkR
  refine ⟨(q.drop (8 * k)).take 8, ?_, ?_⟩
  · rw [chunks, rowStarts, List.map_map, List.getElem?_map, List.getElem?_range hkR]
    rfl
  · by_cases hc : 8 * k + 8 < q.length
    · left
      rw [hrow, rowLine_eq_comma q k hc]
    · right
      rw [hrow, rowLine_eq_no_comma q k hc]

theorem print_cpp_array_preserves_witness :
    (chunks [(5 : ℤ)]).flatten = [(5 : ℤ)] :=
  (print_cpp_array_preserves [5]).1

/-- C5: for valid inputs (positive integer level count, positive start
quantum, no target max) the generated sequence has length exactly
`levels`. -/
theorem generate_length (levels : ℤ) (start_ms : ℝ) (growth_rate : Option ℝ)
    (hl : 1 ≤ levels) (_hs : 0 < start_ms) :
    ∃ l, generate_exponential_quanta levels start_ms growth_rate none
          = .ok l ∧ (l.length : ℤ) = levels := by
  have hlen : ∀ r : ℝ, ((expand levels start_ms r).length : ℤ) = levels := by
    intro r
    rw [expand, List.length_map, List.length_range,
      Int.toNat_of_nonneg (by omega)]
  cases growth_rate with
  | none => exact ⟨expand levels start_ms 1.15, rfl, hlen 1.15⟩
  | some g => exact ⟨expand levels start_ms g, rfl, hlen g⟩

theorem generate_length_witness :
    ∃ l, generate_exponential_quanta 3 10 none none = .ok l ∧
      (l.length : ℤ) = 3 :=
  generate_length 3 10 none (by norm_num) (by norm_num)

/-- C10: with `target_max_ms` absent, a non-positive `levels` is not
rejected: for every start quantum and growth rate the function signals no
error and returns the empty sequence. -/
theorem generate_nonpositive_levels (levels : ℤ) (start_ms : ℝ)
    (growth_rate : Option ℝ) (hl : levels ≤ 0) :
    generate_exponential_quanta levels start_ms growth_rate none = .ok [] := by
  have hexp : ∀ r : ℝ, expand levels start_ms r = [] := by
    intro r
    rw [expand, Int.toNat_eq_zero.mpr hl]
    rfl
  cases growth_rate with
  | none =>
    rw [show generate_exponential_quanta levels start_ms none none
          = .ok (expand levels start_ms 1.15) from rfl, hexp]
  | some g =>
    rw [show generate_exponential_quanta levels start_ms (some g) none
          = .ok (expand levels start_ms g) from rfl, hexp]

theorem generate_nonpositive_levels_witness :
    generate_exponential_quanta (-3) 7 (some 2) none = .ok [] :=
  generate_nonpositive_levels (-3) 7 (some 2) (by norm_num)

/-- C3: rate resolution priority: a supplied `target_max_ms` takes
precedence and any supplied `growth_rate` is then ignored (the derived rate
is used); otherwise a supplied `growth_rate` is used directly; otherwise the
default effective growth rate is `1.15`. -/
theorem rate_resolution_priority (levels : ℤ) (start_ms g t : ℝ) :
    resolveRate levels start_ms (some g) (some t)
        = resolveRate levels start_ms none (some t) ∧
    (start_ms ≠ 0 → levels ≠ 1 →
      resolveRate levels start_ms (some g) (some t)
        = .ok ((t / start_ms) ^ ((1 : ℝ) / ((levels : ℝ) - 1)))) ∧
    resolveRate levels start_ms (some g) none = .ok g ∧
    resolveRate levels start_ms none none = .ok (1.15 : ℝ) := by
  refine ⟨rfl, fun hs hl => ?_, rfl, rfl⟩
  simp only [resolveRate]
  rw [if_neg hs, if_neg hl]

theorem rate_resolution_priority_witness :
    resolveRate 3 2 (some 99) (some 8)
      = .ok (((8 : ℝ) / 2) ^ ((1 : ℝ) / (((3 : ℤ) : ℝ) - 1))) :=
  (rate_resolution_priority 3 2 99 8).2.1 (by norm_num) (by norm_num)

/-- C6: whenever the start quantum is positive and the resolved effective
growth rate is at least 1, the generated sequence is non-decreasing: each
element is at most the next. -/
theorem generate_monotone (levels : ℤ) (start_ms r : ℝ)
    (growth_rate target_max_ms : Option ℝ) (hs : 0 < start_ms)
    (hr : resolveRate levels start_ms growth_rate target_max_ms = .ok r)
    (h1 : 1 ≤ r) :
    ∃ l, generate_exponential_quanta levels start_ms growth_rate target_max_ms
          = .ok l ∧ l.Chain' (· ≤ ·) := by
  refine ⟨expand levels start_ms r, ?_, ?_⟩
  · simp only [generate_exponential_quanta]
    rw [hr]
    rfl
  · rw [expand, List.chain'_map]
    cases hn : levels.toNat with
    | zero => simp
    | succ n =>
      rw [List.chain'_range_succ]
      intro m hm
      show pyRound (rawValue start_ms r m) ≤ pyRound (rawValue start_ms r (m + 1))
      apply pyRound_mono
      simp only [rawValue, pow_succ]
      have hp : (0 : ℝ) < r ^ m := pow_pos (by linarith) m
      have h2 : r ^ m ≤ r ^ m * r := le_mul_of_one_le_right (le_of_lt hp) h1
      exact mul_le_mul_of_nonneg_left h2 (le_of_lt hs)

theorem generate_monotone_witness :
    ∃ l, generate_exponential_quanta 3 10 (some 2) none = .ok l ∧
      l.Chain' (· ≤ ·) :=
  generate_monotone 3 10 2 (some 2) none (by norm_num) rfl (by norm_num)

lemma expand_getElem (levels : ℤ) (start_ms r : ℝ) (i : ℕ)
    (hi : i < levels.toNat) :
    (expand levels start_ms r)[i]? = some (pyRound (rawValue start_ms r i)) := by
  rw [expand, List.getElem?_map, List.getElem?_range hi]
  rfl

/-- C2: in target-max mode (positive start quantum and target, at least two
levels) the derived effective growth rate is
`(target / start) ^ (1 / (levels - 1))`, the last level's raw pre-rounding
value equals the target exactly, and hence the rounded last element of the
generated sequence is within 1/2 of the target. -/
theorem target_max_mode (levels : ℤ) (start_ms target_max_ms : ℝ)
    (hs : 0 < start_ms) (ht : 0 < target_max_ms) (hl : 2 ≤ levels) :
    ∃ r, resolveRate levels start_ms none (some target_max_ms) = .ok r ∧
      rawValue start_ms r (levels.toNat - 1) = target_max_ms ∧
      ∃ l, generate_exponential_quanta levels start_ms none (some target_max_ms)
            = .ok l ∧
        ∃ v, l[levels.toNat - 1]? = some v ∧ l.length = levels.toNat ∧
          |(v : ℝ) - target_max_ms| ≤ 1/2 := by
  set r : ℝ := (target_max_ms / start_ms) ^ ((1 : ℝ) / ((levels : ℝ) - 1))
    with hrdef
  have h0 : (0 : ℤ) ≤ levels := by omega
  have h1 : 1 ≤ levels.toNat := by omega
  have hi : levels.toNat - 1 < levels.toNat := by omega
  have hne : ((levels : ℝ) - 1) ≠ 0 := by
    have h2 : (2 : ℝ) ≤ (levels : ℝ) := by exact_mod_cast hl
    linarith
  have hx : (0 : ℝ) ≤ target_max_ms / start_ms := le_of_lt (div_pos ht hs)
  have hcast : ((levels.toNat - 1 : ℕ) : ℝ) = (levels : ℝ) - 1 := by
    have h3 : (((levels.toNat - 1 : ℕ) : ℤ) : ℝ) = ((levels - 1 : ℤ) : ℝ) := by
      congr 1
      omega
    push_cast at h3
    linarith
  have hres : resolveRate levels start_ms none (some target_max_ms) = .ok r := by
    simp only [resolveRate]
    rw [if_neg (ne_of_gt hs), if_neg (by omega : ¬ levels = 1)]
  have hraw : rawValue start_ms r (levels.toNat - 1) = target_max_ms := by
    rw [rawValue, hrdef,
      ← Real.rpow_natCast
        ((target_max_ms / start_ms) ^ ((1 : ℝ) / ((levels : ℝ) - 1)))
        (levels.toNat - 1),
      ← Real.rpow_mul hx, hcast, one_div, inv_mul_cancel₀ hne, Real.rpow_one,
      mul_comm, div_mul_cancel₀ _ (ne_of_gt hs)]
  refine ⟨r, hres, hraw, expand levels start_ms r, ?_,
    pyRound (rawValue start_ms r (levels.toNat - 1)), ?_, ?_, ?_⟩
  · simp only [generate_exponential_quanta]
    rw [hres]
    rfl
  · exact expand_getElem levels start_ms r _ hi
  · simp [expand]
  · rw [hraw]
    exact pyRound_dist target_max_ms

theorem target_max_mode_witness :
    ∃ r, resolveRate 2 1 none (some 4) = .ok r ∧
      rawValue 1 r ((2 : ℤ).toNat - 1) = 4 ∧
      ∃ l, generate_exponential_quanta 2 1 none (some 4) = .ok l ∧
        ∃ v, l[(2 : ℤ).toNat - 1]? = some v ∧ l.length = (2 : ℤ).toNat ∧
          |(v : ℝ) - 4| ≤ 1/2 :=
  target_max_mode 2 1 4 (by norm_num) (by norm_num) (by norm_num)

/-- C4: in default mode `generate(3, 10)` resolves the growth rate to
`1.15`, produces raw values `10`, `11.5`, `13.225`, and returns the rounded
sequence `[10, 12, 13]` (the middle raw value `11.5` is a tie and rounds to
the even integer `12`). -/
theorem default_mode_example :
    resolveRate 3 10 none none = .ok (1.15 : ℝ) ∧
    rawValue 10 1.15 0 = 10 ∧ rawValue 10 1.15 1 = 11.5 ∧
    rawValue 10 1.15 2 = 13.225 ∧
    generate_exponential_quanta 3 10 none none = .ok [10, 12, 13] := by
  have e0 : pyRound (rawValue 10 1.15 0) = 10 :=
    pyRound_of_lt_half _ 10 (by norm_num [rawValue]) (by norm_num [rawValue])
  have e1 : pyRound (rawValue 10 1.15 1) = 12 := by
    have h : rawValue 10 1.15 1 = ((11 : ℤ) : ℝ) + 1/2 := by
      norm_num [rawValue]
    rw [h, pyRound_half_odd 11 (by decide)]
    decide
  have e2 : pyRound (rawValue 10 1.15 2) = 13 :=
    pyRound_of_lt_half _ 13 (by norm_num [rawValue]) (by norm_num [rawValue])
  refine ⟨rfl, by norm_num [rawValue], by norm_num [rawValue],
    by norm_num [rawValue], ?_⟩
  rw [show generate_exponential_quanta 3 10 none none
        = .ok (expand 3 10 1.15) from rfl,
    show expand 3 10 (1.15 : ℝ)
        = [pyRound (rawValue 10 1.15 0), pyRound (rawValue 10 1.15 1),
           pyRound (rawValue 10 1.15 2)] from rfl,
    e0, e1, e2]

/-- C9: the rounding policy is round half to even: every generated element
is `pyRound` of its raw value, `pyRound` picks the nearest integer (strictly
nearest when the fractional part differs from one half), and an exact half
rounds to the even neighbour — so raw `11.5` rounds to `12` and raw `12.5`
also rounds to `12`. -/
theorem rounding_half_even :
    (∀ x : ℝ, |(pyRound x : ℝ) - x| ≤ 1/2) ∧
    (∀ x : ℝ, Int.fract x ≠ 1/2 → |(pyRound x : ℝ) - x| < 1/2) ∧
    (∀ n : ℤ, Even n → pyRound ((n : ℝ) + 1/2) = n) ∧
    (∀ n : ℤ, ¬ Even n → pyRound ((n : ℝ) + 1/2) = n + 1) ∧
    pyRound (11.5 : ℝ) = 12 ∧ pyRound (12.5 : ℝ) = 12 ∧
    (∀ (levels : ℤ) (start_ms r : ℝ) (g t : Option ℝ) (l : List ℤ),
      resolveRate levels start_ms g t = .ok r →
      generate_exponential_quanta levels start_ms g t = .ok l →
      ∀ i : ℕ, i < levels.toNat →
        l[i]? = some (pyRound (rawValue start_ms r i))) := by
  refine ⟨pyRound_dist, pyRound_dist_lt, pyRound_half_even, pyRound_half_odd,
    ?_, ?_, ?_⟩
  · rw [show (11.5 : ℝ) = ((11 : ℤ) : ℝ) + 1/2 by norm_num,
      pyRound_half_odd 11 (by decide)]
    decide
  · rw [show (12.5 : ℝ) = ((12 : ℤ) : ℝ) + 1/2 by norm_num,
      pyRound_half_even 12 (by decide)]
  · intro levels start_ms r g t l hr hgen i hi
    have hexp : generate_exponential_quanta levels start_ms g t
        = .ok (expand levels start_ms r) := by
      simp only [generate_exponential_quanta]
      rw [hr]
      rfl
    rw [hexp] at hgen
    injection hgen with h
    subst h
    exact expand_getElem levels start_ms r i hi

theorem rounding_half_even_witness :
    [(10 : ℤ)][0]? = some (pyRound (rawValue 10 2 0)) := by
  have h10 : pyRound (rawValue 10 2 0) = 10 :=
    pyRound_of_lt_half _ 10 (by norm_num [rawValue]) (by norm_num [rawValue])
  have hgen : generate_exponential_quanta 1 10 (some 2) none
      = .ok [(10 : ℤ)] := by
    rw [show generate_exponential_quanta 1 10 (some 2) none
          = .ok [pyRound (rawValue 10 2 0)] from rfl, h10]
  exact rounding_half_even.2.2.2.2.2.2 1 10 2 (some 2) none [10] rfl hgen 0
    (by decide)

/-- C1 counterexample: the script performs no precondition validation.  With
`levels = 0 < 1` and no target — a violated precondition — it silently
returns the empty list instead of failing with `InvalidParameter`, and with
`levels = 1` and a target it raises `ZeroDivisionError`, not
`InvalidParameter`. -/
theorem no_invalid_parameter_counterexample :
    generate_exponential_quanta 0 10 none none = .ok [] ∧
    generate_exponential_quanta 1 10 none (some 100)
        = .error GenError.zeroDivisionError ∧
    generate_exponential_quanta 1 10 none (some 100)
        ≠ .error GenError.invalidParameter := by
  have h2 : generate_exponential_quanta 1 10 none (some 100)
      = .error GenError.zeroDivisionError := by
    have hres : resolveRate 1 10 none (some 100)
        = .error GenError.zeroDivisionError := by
      simp only [resolveRate]
      norm_num
    simp only [generate_exponential_quanta]
    rw [hres]
    rfl
  refine ⟨rfl, h2, ?_⟩
  rw [h2]
  simp

/-- C1 amended: the code performs no parameter validation and never signals
`InvalidParameter`.  With no target every call succeeds, whatever the level
count, start quantum, or growth rate; with a target and a positive start
quantum the call fails — with `ZeroDivisionError` — exactly when
`levels = 1`, and no error at all is raised for the other precondition
violations. -/
theorem no_parameter_validation (levels : ℤ) (start_ms t : ℝ)
    (g : Option ℝ) (hs : 0 < start_ms) :
    (∀ (s' : ℝ) (g' : Option ℝ),
      ∃ l, generate_exponential_quanta levels s' g' none = .ok l) ∧
    (generate_exponential_quanta levels start_ms g (some t)
        = .error GenError.zeroDivisionError ↔ levels = 1) ∧
    (∀ t' : Option ℝ, generate_exponential_quanta levels start_ms g t'
        ≠ .error GenError.invalidParameter) := by
  have hok : ∀ (lv : ℤ) (s' : ℝ) (g' : Option ℝ),
      ∃ l, generate_exponential_quanta lv s' g' none = .ok l := by
    intro lv s' g'
    cases g' with
    | none => exact ⟨expand lv s' 1.15, rfl⟩
    | some g0 => exact ⟨expand lv s' g0, rfl⟩
  have htgt : ∀ t0 : ℝ, generate_exponential_quanta levels start_ms g (some t0)
      = if levels = 1 then .error GenError.zeroDivisionError
        else .ok (expand levels start_ms
          ((t0 / start_ms) ^ ((1 : ℝ) / ((levels : ℝ) - 1)))) := by
    intro t0
    simp only [generate_exponential_quanta, resolveRate]
    rw [if_neg (ne_of_gt hs)]
    by_cases hl : levels = 1
    · rw [if_pos hl, if_pos hl]
      rfl
    · rw [if_neg hl, if_neg hl]
      rfl
  refine ⟨hok levels, ?_, ?_⟩
  · rw [htgt t]
    by_cases hl : levels = 1
    · simp [hl]
    · simp [hl]
  · intro t'
    cases t' with
    | none =>
      obtain ⟨l, hl⟩ := hok levels start_ms g
      rw [hl]
      simp
    | some t0 =>
      rw [htgt t0]
      by_cases hl : levels = 1
      · simp [hl]
      · simp [hl]

theorem no_parameter_validation_witness :
    ∃ l, generate_exponential_quanta (-5) 0 none none = .ok l :=
  (no_parameter_validation (-5) 10 1 none (by norm_num)).1 0 none
